import Mathlib

/-!
Verification of the synthetic-user-simulator core against its specification.

The Python source (src/simulator.py, src/app.py) is shallowly embedded:
JSON payloads produced by the external model become a `JsonValue` tree,
Python dicts become association lists (with last-binding-wins lookup, as
`json.loads` keeps the last duplicate key), fallible operations such as
`int(...)` coercion and dict subscripting return `Option`, and raised
exceptions become `Except PyError`.
-/

namespace SynthSim

/-- A JSON value as produced by `json.loads` (numbers restricted to the
integers, which is all the simulator's payload fields use). -/
inductive JsonValue where
  | null : JsonValue
  | bool : Bool → JsonValue
  | num : Int → JsonValue
  | str : String → JsonValue
  | arr : List JsonValue → JsonValue
  | obj : List (String × JsonValue) → JsonValue
  deriving BEq

/-- A parsed Python dict (string keys), as an association list. -/
def PyDict := List (String × JsonValue)

/-- `d.get(k)` on a dict parsed by `json.loads`: with duplicate keys in the
JSON text the last binding wins, so lookup returns the last match. -/
def dictGet (d : PyDict) (k : String) : Option JsonValue :=
  match d with
  | [] => none
  | (k', v) :: rest =>
    match dictGet rest k with
    | some w => some w
    | none => if k' = k then some v else none

/-- The ASCII whitespace characters stripped by Python `str.strip()`. -/
def wsChars : List Char := [' ', '\t', '\n', '\r', '\x0b', '\x0c']

/-- Python `s.strip(chars)`: removes characters of the set from BOTH ends. -/
def pyStripChars (bad : List Char) (s : List Char) : List Char :=
  ((s.dropWhile (· ∈ bad)).reverse.dropWhile (· ∈ bad)).reverse

/-- The numeric value of a decimal digit character, if it is one. -/
def digitVal (c : Char) : Option Nat :=
  if '0' ≤ c ∧ c ≤ '9' then some (c.toNat - 48) else none

/-- Continuation of Python `int(str)` digit parsing: digits with single
underscores allowed between digits. -/
def digitsTail (acc : Nat) : List Char → Option Nat
  | [] => some acc
  | c :: rest =>
    if c = '_' then
      match rest with
      | [] => none
      | c2 :: rest2 =>
        match digitVal c2 with
        | some d => digitsTail (acc * 10 + d) rest2
        | none => none
    else
      match digitVal c with
      | some d => digitsTail (acc * 10 + d) rest
      | none => none

/-- Digit-sequence parsing for Python `int(str)`: nonempty, starts with a
digit. -/
def startDigits : List Char → Option Nat
  | [] => none
  | c :: rest =>
    match digitVal c with
    | some d => digitsTail d rest
    | none => none

/-- Python `int(s)` for a string `s`: surrounding whitespace stripped,
optional sign, decimal digits (underscores between digits allowed);
`none` models the `ValueError` raised otherwise. -/
def pyIntOfString (s : String) : Option Int :=
  match pyStripChars wsChars s.data with
  | '+' :: rest => (startDigits rest).map Int.ofNat
  | '-' :: rest => (startDigits rest).map (fun n => -(n : Int))
  | rest => (startDigits rest).map Int.ofNat

/-- Python `int(v)` on a JSON-decoded value: ints pass through, bools
coerce to 0/1, strings parse; `none` models the `TypeError`/`ValueError`
raised on null, lists and objects or on an unparseable string. -/
def pyIntCoerce : JsonValue → Option Int
  | .num n => some n
  | .bool b => some (if b then 1 else 0)
  | .str s => pyIntOfString s
  | .null => none
  | .arr _ => none
  | .obj _ => none

/-- `Step` dataclass of src/simulator.py. -/
structure Step where
  id : Int
  name : String
  description : String
  type : String
  deriving DecidableEq

/-- `Persona` dataclass of src/simulator.py. The generator stores whatever
values the payload held (Python does not enforce the annotations), so the
narrative fields are raw `JsonValue`s. -/
structure Persona where
  id : Int
  name : JsonValue
  bio : JsonValue
  traits : JsonValue
  tendencies : JsonValue

/-- `StepEvent` dataclass of src/simulator.py. `action` and `reasoning`
hold whatever value the decision payload contained (the code stores
`data.get(...)` results unchecked, with a `type: ignore`). -/
structure StepEvent where
  step_id : Int
  action : JsonValue
  friction : Int
  reasoning : JsonValue

/-- `SimulationRun` dataclass of src/simulator.py. -/
structure SimulationRun where
  persona : Persona
  events : List StepEvent
  converted : Bool
  drop_step_id : Option Int

/-- Python `event.action == "drop"`: true exactly when the stored value is
the string `"drop"`. -/
def isDrop (v : JsonValue) : Bool :=
  match v with
  | .str s => s = "drop"
  | _ => false

/-- The payload-handling tail of `simulate_step` (src/simulator.py lines
141-151), applied to the dict parsed from the model response:
`action = data.get("action", "continue")`,
`friction = max(1, min(10, int(data.get("friction", 5))))` (the `int`
coercion raises on non-coercible values, modelled by `none`),
`reasoning = data.get("reasoning", "")`. -/
def simulate_step (step : Step) (data : PyDict) : Option StepEvent :=
  let action := (dictGet data "action").getD (.str "continue")
  match pyIntCoerce ((dictGet data "friction").getD (.num 5)) with
  | none => none
  | some f =>
    some { step_id := step.id
           action := action
           friction := max 1 (min 10 f)
           reasoning := (dictGet data "reasoning").getD (.str "") }

/-- A Python exception value (configuration error, `json.JSONDecodeError`,
`ValueError`, ...), carried unmodified through propagation. -/
structure PyError where
  msg : String
  deriving DecidableEq

/-- The full `simulate_step` including the external call: `resp` gives, per
step, the outcome of response extraction and `json.loads` (an exception or
a parsed dict); the payload tail then runs, its `int(...)` failure raising
a `ValueError`. -/
def step_decision (resp : Step → Except PyError PyDict) (step : Step) :
    Except PyError StepEvent :=
  match resp step with
  | .error e => .error e
  | .ok data =>
    match simulate_step step data with
    | none => .error ⟨"ValueError: invalid literal for int()"⟩
    | some ev => .ok ev

/-- The step loop of `simulate_persona_through_flow` (src/simulator.py
lines 158-163): append each decision's event, break on the first `drop`
(recording its step id), and propagate any exception unmodified. -/
def traverse (dec : Step → Except PyError StepEvent) :
    List Step → Except PyError (List StepEvent × Option Int)
  | [] => .ok ([], none)
  | s :: rest =>
    match dec s with
    | .error e => .error e
    | .ok ev =>
      if isDrop ev.action then .ok ([ev], some s.id)
      else
        match traverse dec rest with
        | .error e => .error e
        | .ok (evs, d) => .ok (ev :: evs, d)

/-- `simulate_persona_through_flow` (src/simulator.py lines 154-171),
parameterised by the per-step decision `dec` (the nondeterministic
`simulate_step` oracle): run the step loop, then
`converted = drop_step_id is None and len(steps) > 0`. -/
def simulate_persona_through_flow (dec : Step → Except PyError StepEvent)
    (persona : Persona) (steps : List Step) : Except PyError SimulationRun :=
  match traverse dec steps with
  | .error e => .error e
  | .ok (events, dsid) =>
    .ok { persona := persona
          events := events
          converted := dsid.isNone && !steps.isEmpty
          drop_step_id := dsid }

/-! ### Aggregator (`summarize_runs`) -/

/-- Mutable per-step accumulator dict entry built by `summarize_runs`
before the finalisation pass. -/
structure StepStatsAcc where
  name : String
  views : Nat
  drops : Nat
  friction_scores : List Int

/-- Per-step stats entry after the finalisation pass added `avg_friction`
and `drop_rate` (rationals model Python's exact int arithmetic and float
division at this scale). -/
structure StepStatsOut where
  name : String
  views : Nat
  drops : Nat
  friction_scores : List Int
  avg_friction : ℚ
  drop_rate : ℚ

/-- One entry of `persona_summaries`. -/
structure PersonaSummary where
  name : JsonValue
  converted : Bool
  drop_step : Option String

/-- The dict returned by `summarize_runs`. -/
structure Summary where
  conversion_rate : ℚ
  step_stats : List (Int × StepStatsOut)
  persona_summaries : List PersonaSummary

/-- Python dict insertion `d[k] = v` on an int-keyed dict: replaces in
place if the key exists, else appends. -/
def dictInsert {α : Type} (d : List (Int × α)) (k : Int) (v : α) :
    List (Int × α) :=
  match d with
  | [] => [(k, v)]
  | (k', v') :: rest =>
    if k' = k then (k, v) :: rest else (k', v') :: dictInsert rest k v

/-- Lookup in an int-keyed dict (keys are unique, so first match). -/
def statsGet {α : Type} (d : List (Int × α)) (k : Int) : Option α :=
  match d with
  | [] => none
  | (k', v) :: rest => if k' = k then some v else statsGet rest k

/-- The init loop of `summarize_runs` (lines 184-190): one zeroed
accumulator per step, keyed by `step.id`. -/
def initStats (steps : List Step) : List (Int × StepStatsAcc) :=
  steps.foldl (fun acc s => dictInsert acc s.id ⟨s.name, 0, 0, []⟩) []

/-- The per-event update body (lines 193-198): bump views, append the
friction score, bump drops when the action is `drop`. -/
def bump (e : StepEvent) (s : StepStatsAcc) : StepStatsAcc :=
  { s with views := s.views + 1
           drops := s.drops + (if isDrop e.action then 1 else 0)
           friction_scores := s.friction_scores ++ [e.friction] }

/-- One iteration of the event loop: `s = step_stats[e.step_id]` raises
`KeyError` (modelled by `none`) when the key is absent, else the entry is
updated in place. -/
def applyEvent (st : List (Int × StepStatsAcc)) (e : StepEvent) :
    Option (List (Int × StepStatsAcc)) :=
  match statsGet st e.step_id with
  | none => none
  | some _ =>
    some (st.map fun kv =>
      if kv.1 = e.step_id then (kv.1, bump e kv.2) else kv)

/-- The event loop over a flat event list. -/
def applyEvents : List StepEvent → List (Int × StepStatsAcc) →
    Option (List (Int × StepStatsAcc))
  | [], st => some st
  | e :: rest, st =>
    match applyEvent st e with
    | none => none
    | some st' => applyEvents rest st'

/-- All events of all runs, in run order then event order — the iteration
order of the nested loops at lines 192-198. -/
def allEvents (runs : List SimulationRun) : List StepEvent :=
  runs.foldr (fun r acc => r.events ++ acc) []

/-- Round-half-to-even on an exact rational, as Python `round` on ints and
exactly representable halves. -/
def roundHalfEven (q : ℚ) : Int :=
  let f := Rat.floor q
  let frac := q - f
  if frac < 1 / 2 then f
  else if 1 / 2 < frac then f + 1
  else if f % 2 = 0 then f else f + 1

/-- Python `round(q, 2)`. -/
def round2 (q : ℚ) : ℚ := (roundHalfEven (q * 100) : ℚ) / 100

/-- The finalisation pass of `summarize_runs` (lines 200-203):
`views = s["views"] or 1`, then
`avg_friction = round(sum(scores) / views, 2) if scores else 0.0` and
`drop_rate = drops / views if views else 0.0` (the guard is on the local
`views`, which is never 0 after the `or 1`). -/
def finalize (s : StepStatsAcc) : StepStatsOut :=
  let views : Nat := if s.views = 0 then 1 else s.views
  { name := s.name
    views := s.views
    drops := s.drops
    friction_scores := s.friction_scores
    avg_friction :=
      if s.friction_scores.isEmpty then 0
      else round2 ((s.friction_scores.foldr (· + ·) 0 : Int) / (views : ℚ))
    drop_rate := if views ≠ 0 then (s.drops : ℚ) / (views : ℚ) else 0 }

/-- `summarize_runs` (src/simulator.py lines 174-222): early return for an
empty run list, conversion rate, per-step accumulation (fallible on a
foreign `step_id`), finalisation, and per-persona summaries
(`drop_step` is the name of the first step whose id equals
`drop_step_id`, `None` when absent or when the run never dropped). -/
def summarize_runs (runs : List SimulationRun) (steps : List Step) :
    Option Summary :=
  if runs.isEmpty then some ⟨0, [], []⟩
  else
    match applyEvents (allEvents runs) (initStats steps) with
    | none => none
    | some st =>
      some
        { conversion_rate :=
            ((runs.filter (·.converted)).length : ℚ) / (runs.length : ℚ)
          step_stats := st.map fun kv => (kv.1, finalize kv.2)
          persona_summaries := runs.map fun r =>
            { name := r.persona.name
              converted := r.converted
              drop_step :=
                match r.drop_step_id with
                | none => none
                | some d => (steps.find? (fun s => s.id == d)).map (·.name) } }

/-! ### Persona generator (`generate_personas`) -/

/-- Python iteration over a JSON-decoded value: lists yield elements,
dicts yield their keys, strings their characters; ints, bools and `None`
raise `TypeError` (modelled by `none`). -/
def pyIterate : JsonValue → Option (List JsonValue)
  | .arr xs => some xs
  | .obj fields => some (fields.map fun kv => .str kv.1)
  | .str s => some (s.data.map fun c => .str (String.singleton c))
  | .num _ => none
  | .bool _ => none
  | .null => none

/-- The `Persona(...)` construction of the loop body (lines 90-98):
`p.get` requires `p` to be a dict (anything else raises, modelled by
`none`); missing fields default to `"Persona {i+1}"`, `""`, `[]`, `[]`. -/
def mkPersona (i : Nat) (p : JsonValue) : Option Persona :=
  match p with
  | .obj d =>
    some { id := Int.ofNat i
           name := (dictGet d "name").getD (.str s!"Persona {i + 1}")
           bio := (dictGet d "bio").getD (.str "")
           traits := (dictGet d "traits").getD (.arr [])
           tendencies := (dictGet d "tendencies").getD (.arr []) }
  | _ => none

/-- The payload-handling tail of `generate_personas` (src/simulator.py
lines 88-99), applied to the dict parsed from the brace-delimited
substring of the model response: iterate `data.get("personas", [])`,
building one `Persona` per element with fresh zero-based ids. The flow
description and requested count shape only the prompt, not this tail. -/
def generate_personas (flow_description : String) (num_personas : Nat)
    (data : PyDict) : Option (List Persona) :=
  match pyIterate ((dictGet data "personas").getD (.arr [])) with
  | none => none
  | some items => (items.enum.map fun ip => mkPersona ip.1 ip.2).allSome

/-! ### Flow parser (`parse_flow`, src/app.py) -/

/-- Python `text.split("\n")`: every newline separates, empties kept. -/
def splitOnNl : List Char → List (List Char)
  | [] => [[]]
  | c :: rest =>
    let r := splitOnNl rest
    if c = '\n' then [] :: r
    else
      match r with
      | [] => [[c]]
      | h :: t => (c :: h) :: t

/-- Does `pat` begin `s`? -/
def leadsWith : List Char → List Char → Bool
  | [], _ => true
  | _ :: _, [] => false
  | a :: as, b :: bs => a = b && leadsWith as bs

/-- Python `line.split(sep, 1)` when `sep in line`: the text before and
after the first occurrence of `sep`; `none` when `sep` is absent. -/
def splitFirst (sep : List Char) : List Char → Option (List Char × List Char)
  | [] => none
  | c :: rest =>
    if leadsWith sep (c :: rest) then some ([], (c :: rest).drop sep.length)
    else
      match splitFirst sep rest with
      | none => none
      | some (a, b) => some (c :: a, b)

/-- The separator `" - "`. -/
def sepChars : List Char := [' ', '-', ' ']

/-- The strip set `"0123456789. "` of `name_part.strip("0123456789. ")`. -/
def numDotSpace : List Char :=
  ['0', '1', '2', '3', '4', '5', '6', '7', '8', '9', '.', ' ']

/-- The synthesized name `f"Step {i+1}"`. -/
def stepDefaultName (n : Nat) : List Char := ("Step " ++ toString n).data

/-- The stripped non-blank lines of the input:
`[l.strip() for l in text.split("\n") if l.strip()]`. -/
def flowLines (text : List Char) : List (List Char) :=
  ((splitOnNl text).map (pyStripChars wsChars)).filter (· ≠ [])

/-- The loop body of `parse_flow` for line `line` at position `i`: split on
the first `" - "` (or synthesize a name), strip `"0123456789. "` from both
ends of the name part and whitespace again, strip the description, and
fall back to the synthesized name when the name came out empty. -/
def parseFlowLine (i : Nat) (line : List Char) : Step :=
  let parts :=
    match splitFirst sepChars line with
    | some nd => nd
    | none => (stepDefaultName (i + 1), line)
  let name := pyStripChars wsChars (pyStripChars numDotSpace parts.1)
  let desc := pyStripChars wsChars parts.2
  { id := Int.ofNat i
    name := (if name = [] then stepDefaultName (i + 1) else name).asString
    description := desc.asString
    type := "decision" }

/-- `parse_flow` (src/app.py lines 34-54). -/
def parse_flow (text : String) : List Step :=
  (flowLines text.data).enum.map fun il => parseFlowLine il.1 il.2

/-! ### Spec-side characterisation of Python `strip` -/

/-- Remove the trailing run of characters drawn from `bad`. -/
def dropTrailingIn (bad : List Char) : List Char → List Char
  | [] => []
  | c :: rest =>
    let r := dropTrailingIn bad rest
    if r = [] ∧ c ∈ bad then [] else c :: r

/-- Spec-side statement of a both-ends strip: remove the leading run and
then the trailing run of characters drawn from `bad`. -/
def stripEndsOf (bad : List Char) (s : List Char) : List Char :=
  dropTrailingIn bad (s.dropWhile (· ∈ bad))

/-- The reverse/dropWhile/reverse implementation of a trailing strip
agrees with the direct recursion. -/
theorem reverse_dropWhile_reverse (bad : List Char) (s : List Char) :
    (s.reverse.dropWhile (· ∈ bad)).reverse = dropTrailingIn bad s := by
  induction s with
  | nil => rfl
  | cons c rest ih =>
    rw [List.reverse_cons, List.dropWhile_append]
    by_cases h : (rest.reverse.dropWhile (· ∈ bad)) = []
    · have hr : dropTrailingIn bad rest = [] := by
        rw [← ih, h, List.reverse_nil]
      rw [if_pos (by simpa using h)]
      show ([c].dropWhile (· ∈ bad)).reverse = dropTrailingIn bad (c :: rest)
      by_cases hc : c ∈ bad
      · simp [List.dropWhile, hc, dropTrailingIn, hr]
      · simp [List.dropWhile, hc, dropTrailingIn, hr]
    · have hr : dropTrailingIn bad rest ≠ [] := by
        rw [← ih]
        simpa using h
      rw [if_neg (by simpa using h), List.reverse_append, ih]
      show [c] ++ dropTrailingIn bad rest = dropTrailingIn bad (c :: rest)
      simp only [dropTrailingIn]
      rw [if_neg (by tauto)]
      rfl

/-- Python `s.strip(bad)` strips the `bad` run from both ends. -/
theorem pyStripChars_eq_stripEndsOf (bad : List Char) (s : List Char) :
    pyStripChars bad s = stripEndsOf bad s := by
  unfold pyStripChars stripEndsOf
  exact reverse_dropWhile_reverse bad (s.dropWhile (· ∈ bad))

/-! ## Claim theorems -/

/-- A throwaway concrete step for counterexamples and witnesses. -/
def step0 : Step := ⟨0, "Landing Page", "Hero section", "decision"⟩

/-- C1 counterexample: the Step Decision Procedure does fail on the
friction field — a present non-numeric, non-coercible value such as the
string `"a lot"` makes `int(...)` raise, so no StepEvent (with friction 5
or otherwise) is produced, contrary to the claim that a non-numeric value
yields 5 and that the procedure never fails on this field. -/
theorem C1_counterexample :
    simulate_step step0 [("friction", JsonValue.str "a lot")] = none := rfl

/-- C1 (amended): for every decision payload, a produced StepEvent's
friction lies in [1,10]; a missing `"friction"` field yields 5; a present
value coercible by Python `int` to `n` is clamped to `max 1 (min 10 n)`
(so 15 becomes 10 and -3 becomes 1); and the only way the procedure fails
on the friction field is a present value that `int` cannot coerce. -/
theorem C1_friction_clamped (step : Step) (data : PyDict) :
    (∀ ev, simulate_step step data = some ev →
      (1 ≤ ev.friction ∧ ev.friction ≤ 10) ∧
      (dictGet data "friction" = none → ev.friction = 5) ∧
      (∀ v n, dictGet data "friction" = some v → pyIntCoerce v = some n →
        ev.friction = max 1 (min 10 n))) ∧
    (simulate_step step data = none →
      ∃ v, dictGet data "friction" = some v ∧ pyIntCoerce v = none) := by
  cases hf : dictGet data "friction" with
  | none =>
    have hstep : simulate_step step data = some
        { step_id := step.id
          action := (dictGet data "action").getD (.str "continue")
          friction := max 1 (min 10 5)
          reasoning := (dictGet data "reasoning").getD (.str "") } := by
      unfold simulate_step
      rw [hf]
      rfl
    refine ⟨fun ev hev => ?_, fun hnone => ?_⟩
    · rw [hstep] at hev
      injection hev with hev
      subst hev
      refine ⟨⟨?_, ?_⟩, ?_, ?_⟩
      · exact (by decide : (1 : Int) ≤ 1 ⊔ 10 ⊓ 5)
      · exact (by decide : (1 : Int) ⊔ 10 ⊓ 5 ≤ 10)
      · intro _
        exact (by decide : (1 : Int) ⊔ 10 ⊓ 5 = 5)
      · intro v n hv _
        cases hv
    · rw [hstep] at hnone
      cases hnone
  | some v =>
    cases hc : pyIntCoerce v with
    | none =>
      have hstep : simulate_step step data = none := by
        unfold simulate_step
        rw [hf]
        show (match pyIntCoerce v with
          | none => none
          | some f => some _) = none
        rw [hc]
      refine ⟨fun ev hev => ?_, fun _ => ⟨v, rfl, hc⟩⟩
      rw [hstep] at hev
      cases hev
    | some n =>
      have hstep : simulate_step step data = some
          { step_id := step.id
            action := (dictGet data "action").getD (.str "continue")
            friction := max 1 (min 10 n)
            reasoning := (dictGet data "reasoning").getD (.str "") } := by
        unfold simulate_step
        rw [hf]
        show (match pyIntCoerce v with
          | none => none
          | some f => some _) = _
        rw [hc]
      refine ⟨fun ev hev => ?_, fun hnone => ?_⟩
      · rw [hstep] at hev
        injection hev with hev
        subst hev
        refine ⟨⟨le_max_left _ _, max_le (by norm_num) (min_le_left _ _)⟩, ?_, ?_⟩
        · intro hmiss
          cases hmiss
        · intro v' n' hv' hn'
          injection hv' with hv'
          subst hv'
          rw [hc] at hn'
          injection hn' with hn'
          subst hn'
          rfl
      · rw [hstep] at hnone
        cases hnone

/-- C1 witness: at the concrete payload `{"friction": 15}` the theorem
yields the clamped in-range value. -/
theorem C1_friction_clamped_witness :
    1 ≤ (StepEvent.mk 0 (.str "continue") (max 1 (min 10 15)) (.str "")).friction ∧
    (StepEvent.mk 0 (.str "continue") (max 1 (min 10 15)) (.str "")).friction ≤ 10 :=
  ((C1_friction_clamped step0 [("friction", JsonValue.num 15)]).1 _ rfl).1

/-- C2 counterexample: with the parseable payload `{"action": "maybe"}`
the produced StepEvent's action is the string `"maybe"`, not a member of
the `continue`/`hesitate`/`drop` enum — the procedure performs no
validation of the action field. -/
theorem C2_counterexample :
    simulate_step step0 [("action", JsonValue.str "maybe")] =
      some ⟨0, JsonValue.str "maybe", max 1 (min 10 5), JsonValue.str ""⟩ ∧
    JsonValue.str "maybe" ≠ JsonValue.str "continue" ∧
    JsonValue.str "maybe" ≠ JsonValue.str "hesitate" ∧
    JsonValue.str "maybe" ≠ JsonValue.str "drop" := by
  refine ⟨rfl, ?_, ?_, ?_⟩ <;> {intro h; injection h with h; simp at h}

/-- C2 (amended): the StepEvent's action is exactly the payload's
`"action"` value when present (whatever it holds — no membership check),
and `"continue"` when the field is missing; consequently the action lies
in the three-value enum whenever the field is missing or itself one of
the three enum strings. -/
theorem C2_action_enum (step : Step) (data : PyDict) :
    ∀ ev, simulate_step step data = some ev →
      ev.action = (dictGet data "action").getD (.str "continue") ∧
      (dictGet data "action" = none → ev.action = .str "continue") ∧
      ((dictGet data "action" = none ∨
        dictGet data "action" = some (.str "continue") ∨
        dictGet data "action" = some (.str "hesitate") ∨
        dictGet data "action" = some (.str "drop")) →
        (ev.action = .str "continue" ∨ ev.action = .str "hesitate" ∨
          ev.action = .str "drop")) := by
  intro ev hev
  have hact : ev.action = (dictGet data "action").getD (.str "continue") := by
    unfold simulate_step at hev
    cases hc : pyIntCoerce ((dictGet data "friction").getD (.num 5)) with
    | none =>
      rw [show (match pyIntCoerce ((dictGet data "friction").getD (.num 5)) with
        | none => (none : Option StepEvent)
        | some f => some _) = none from by rw [hc]] at hev
      cases hev
    | some n =>
      rw [show (match pyIntCoerce ((dictGet data "friction").getD (.num 5)) with
        | none => (none : Option StepEvent)
        | some f => some { step_id := step.id
                           action := (dictGet data "action").getD (.str "continue")
                           friction := max 1 (min 10 f)
                           reasoning := (dictGet data "reasoning").getD (.str "") }) =
          some { step_id := step.id
                 action := (dictGet data "action").getD (.str "continue")
                 friction := max 1 (min 10 n)
                 reasoning := (dictGet data "reasoning").getD (.str "") } from by
        rw [hc]] at hev
      injection hev with hev
      subst hev
      rfl
  refine ⟨hact, fun hmiss => by rw [hact, hmiss]; rfl, fun henum => ?_⟩
  rcases henum with h | h | h | h <;> rw [hact, h] <;> simp [Option.getD]

/-- C2 witness: at the payload `{"action": "hesitate", "friction": 3}` the
theorem places the produced action in the enum. -/
theorem C2_action_enum_witness :
    (StepEvent.mk 0 (.str "hesitate") (max 1 (min 10 3)) (.str "")).action
        = JsonValue.str "continue" ∨
    (StepEvent.mk 0 (.str "hesitate") (max 1 (min 10 3)) (.str "")).action
        = JsonValue.str "hesitate" ∨
    (StepEvent.mk 0 (.str "hesitate") (max 1 (min 10 3)) (.str "")).action
        = JsonValue.str "drop" :=
  ((C2_action_enum step0
      [("action", JsonValue.str "hesitate"), ("friction", JsonValue.num 3)] _ rfl).2.2
    (Or.inr (Or.inr (Or.inl rfl))))

/-- The name the C3 claim predicts for a name segment: only the LEADING
run of digits/periods/spaces removed, then surrounding whitespace. -/
def claimC3Name (np : List Char) : List Char :=
  stripEndsOf wsChars (np.dropWhile (· ∈ numDotSpace))

/-- C3 counterexample: on the line `"Plan 9 - pick a plan"` the parser
produces the name `"Plan"` — Python's `strip("0123456789. ")` removes the
trailing `" 9"` as well — while the claim's leading-only stripping
predicts `"Plan 9"`. -/
theorem C3_counterexample :
    (parse_flow "Plan 9 - pick a plan").map Step.name = ["Plan"] ∧
    (claimC3Name ("Plan 9".data)).asString = "Plan 9" ∧
    ("Plan" : String) ≠ "Plan 9" := by
  refine ⟨by rfl, by rfl, by decide⟩

/-- C3 (amended): for every positioned line of the flow text that contains
`" - "`, splitting at the first occurrence into name segment `np` and
description segment `dp`, the parsed step's description is `dp` with
surrounding whitespace stripped, and its name is `np` with the
digit/period/space run removed from BOTH ends (then whitespace), falling
back to the synthesized `"Step {i+1}"` only when that leaves nothing. -/
theorem C3_name_description (text : String) (i : Nat) (line np dp : List Char)
    (h1 : (flowLines text.data)[i]? = some line)
    (h2 : splitFirst sepChars line = some (np, dp)) :
    (parse_flow text)[i]? = some (parseFlowLine i line) ∧
    (parseFlowLine i line).description = (stripEndsOf wsChars dp).asString ∧
    (parseFlowLine i line).name =
      (if stripEndsOf wsChars (stripEndsOf numDotSpace np) = []
       then stepDefaultName (i + 1)
       else stripEndsOf wsChars (stripEndsOf numDotSpace np)).asString := by
  refine ⟨?_, ?_, ?_⟩
  · unfold parse_flow
    rw [List.getElem?_map, List.getElem?_enum, h1]
    rfl
  · simp only [parseFlowLine, h2, pyStripChars_eq_stripEndsOf]
  · simp only [parseFlowLine, h2, pyStripChars_eq_stripEndsOf]

/-- C3 witness: the default sample line `"1. Landing Page - Hero section"`
parses to name `"Landing Page"` and description `"Hero section"`. -/
theorem C3_name_description_witness :
    (parse_flow "1. Landing Page - Hero section")[0]? =
      some (parseFlowLine 0 "1. Landing Page - Hero section".data) ∧
    (parseFlowLine 0 "1. Landing Page - Hero section".data).description =
      (stripEndsOf wsChars "Hero section".data).asString ∧
    (parseFlowLine 0 "1. Landing Page - Hero section".data).name =
      (if stripEndsOf wsChars (stripEndsOf numDotSpace "1. Landing Page".data) = []
       then stepDefaultName 1
       else stripEndsOf wsChars (stripEndsOf numDotSpace "1. Landing Page".data)).asString :=
  C3_name_description "1. Landing Page - Hero section" 0
    "1. Landing Page - Hero section".data "1. Landing Page".data
    "Hero section".data (by rfl) (by rfl)

/-- Everything the step loop guarantees on success: each event is the
decision of the corresponding step (in order), only the last event may be
a drop, a `none` drop id means the whole flow was walked drop-free, and a
`some` drop id means the last event is a drop at exactly that step. -/
theorem traverse_ok_spec (dec : Step → Except PyError StepEvent) :
    ∀ (steps : List Step) (evs : List StepEvent) (d : Option Int),
      traverse dec steps = .ok (evs, d) →
      List.Forall₂ (fun s e => dec s = .ok e) (steps.take evs.length) evs ∧
      (∀ i (hi : i < evs.length), i + 1 < evs.length →
        isDrop (evs.get ⟨i, hi⟩).action = false) ∧
      (d = none → evs.length = steps.length ∧
        ∀ e ∈ evs, isDrop e.action = false) ∧
      (∀ x, d = some x → evs ≠ [] ∧
        (∀ hne : evs ≠ [], isDrop (evs.getLast hne).action = true) ∧
        steps[evs.length - 1]?.map Step.id = some x) := by
  intro steps
  induction steps with
  | nil =>
    intro evs d h
    unfold traverse at h
    injection h with h
    injection h with h1 h2
    subst h1
    subst h2
    refine ⟨List.Forall₂.nil, ?_, fun _ => ⟨rfl, by simp⟩, ?_⟩
    · intro i hi hlt
      simp at hi
    · intro x hx
      cases hx
  | cons s rest ih =>
    intro evs d h
    unfold traverse at h
    cases hd : dec s with
    | error e =>
      rw [hd] at h
      dsimp only at h
      cases h
    | ok ev =>
      rw [hd] at h
      dsimp only at h
      cases hdrop : isDrop ev.action with
      | true =>
        rw [if_pos hdrop] at h
        injection h with h
        injection h with h1 h2
        subst h1
        refine ⟨?_, ?_, ?_, ?_⟩
        · exact List.Forall₂.cons hd List.Forall₂.nil
        · intro i hi hlt
          simp only [List.length_singleton] at hlt
          omega
        · intro hnone
          rw [hnone] at h2
          cases h2
        · intro x hx
          rw [← h2] at hx
          injection hx with hx
          subst hx
          refine ⟨by simp, fun hne => ?_, by simp⟩
          simp only [List.getLast_singleton]
          exact hdrop
      | false =>
        rw [if_neg (by simp [hdrop])] at h
        cases ht : traverse dec rest with
        | error e =>
          rw [ht] at h
          dsimp only at h
          cases h
        | ok p =>
          obtain ⟨evs', d'⟩ := p
          rw [ht] at h
          dsimp only at h
          injection h with h
          injection h with h1 h2
          subst h1
          subst h2
          obtain ⟨ih1, ih2, ih3, ih4⟩ := ih evs' d' ht
          refine ⟨?_, ?_, ?_, ?_⟩
          · rw [List.length_cons, List.take_succ_cons]
            exact List.Forall₂.cons hd ih1
          · intro i hi hlt
            match i, hi with
            | 0, _ => exact hdrop
            | Nat.succ j, hi =>
              rw [List.get_cons_succ]
              refine ih2 j (by simpa using hi) (by simpa using hlt)
          · intro hnone
            obtain ⟨hlen, hall⟩ := ih3 hnone
            refine ⟨by simpa using hlen, ?_⟩
            intro e he
            rcases List.mem_cons.mp he with rfl | he'
            · exact hdrop
            · exact hall e he'
          · intro x hx
            obtain ⟨hne', hlast', hx'⟩ := ih4 x hx
            have hlen1 : 1 ≤ evs'.length := by
              cases evs' with
              | nil => exact absurd rfl hne'
              | cons a l => simp
            refine ⟨by simp, fun hne => ?_, ?_⟩
            · rw [List.getLast_cons hne']
              exact hlast' hne'
            · have h1 : (ev :: evs').length - 1 = (evs'.length - 1) + 1 := by
                simp only [List.length_cons]
                omega
              rw [h1, List.getElem?_cons_succ]
              exact hx'

/-- A throwaway concrete persona for witnesses. -/
def persona0 : Persona := ⟨0, .str "Ann", .str "", .arr [], .arr []⟩

/-- A decision oracle that always continues with friction 5. -/
def decContinue : Step → Except PyError StepEvent :=
  fun s => .ok ⟨s.id, .str "continue", 5, .str ""⟩

/-- The run produced by `decContinue` over the single step `step0`. -/
def run0 : SimulationRun :=
  ⟨persona0, [⟨0, .str "continue", 5, .str ""⟩], true, none⟩

/-- C4: every successfully produced SimulationRun's events form an
in-order prefix of the step sequence — each event is the decision of the
corresponding step, at most `len steps` of them, non-empty only if steps
is, no event before the last is a drop, a `none` drop id means all steps
were walked, and a `some` drop id is the id of the step at the final
event's position (no later step evaluated). -/
theorem C4_events_inorder (dec : Step → Except PyError StepEvent)
    (persona : Persona) (steps : List Step) (run : SimulationRun)
    (h : simulate_persona_through_flow dec persona steps = .ok run) :
    run.events.length ≤ steps.length ∧
    (run.events ≠ [] → steps ≠ []) ∧
    List.Forall₂ (fun s e => dec s = .ok e)
      (steps.take run.events.length) run.events ∧
    (∀ i (hi : i < run.events.length), i + 1 < run.events.length →
      isDrop (run.events.get ⟨i, hi⟩).action = false) ∧
    (run.drop_step_id = none → run.events.length = steps.length) ∧
    (∀ x, run.drop_step_id = some x → run.events ≠ [] ∧
      (∀ hne : run.events ≠ [], isDrop (run.events.getLast hne).action = true) ∧
      steps[run.events.length - 1]?.map Step.id = some x) := by
  unfold simulate_persona_through_flow at h
  cases ht : traverse dec steps with
  | error e =>
    rw [ht] at h
    cases h
  | ok p =>
    obtain ⟨evs, dsid⟩ := p
    rw [ht] at h
    dsimp only at h
    injection h with h
    subst h
    obtain ⟨p1, p2, p3, p4⟩ := traverse_ok_spec dec steps evs dsid ht
    have hlen : evs.length ≤ steps.length := by
      have h2 := List.Forall₂.length_eq p1
      rw [List.length_take] at h2
      omega
    refine ⟨hlen, ?_, p1, p2, fun hnone => (p3 hnone).1, p4⟩
    intro he hst
    rw [hst] at hlen
    simp only [List.length_nil, Nat.le_zero, List.length_eq_zero] at hlen
    exact he hlen

/-- C4 witness: a one-step flow walked by the always-continue oracle has
at most one event per step. -/
theorem C4_events_inorder_witness : run0.events.length ≤ [step0].length :=
  (C4_events_inorder decContinue persona0 [step0] run0 (by rfl)).1

/-- C5: a produced run is converted exactly when no event is a drop and
the events cover all of a non-empty step sequence. -/
theorem C5_converted_iff (dec : Step → Except PyError StepEvent)
    (persona : Persona) (steps : List Step) (run : SimulationRun)
    (h : simulate_persona_through_flow dec persona steps = .ok run) :
    run.converted = true ↔
      ((∀ e ∈ run.events, isDrop e.action = false) ∧
        run.events.length = steps.length ∧ 0 < steps.length) := by
  unfold simulate_persona_through_flow at h
  cases ht : traverse dec steps with
  | error e =>
    rw [ht] at h
    cases h
  | ok p =>
    obtain ⟨evs, dsid⟩ := p
    rw [ht] at h
    dsimp only at h
    injection h with h
    subst h
    obtain ⟨p1, p2, p3, p4⟩ := traverse_ok_spec dec steps evs dsid ht
    show (dsid.isNone && !steps.isEmpty) = true ↔ _
    constructor
    · intro hc
      rw [Bool.and_eq_true] at hc
      obtain ⟨h1, h2⟩ := hc
      have hdn : dsid = none := Option.isNone_iff_eq_none.mp h1
      obtain ⟨hlen, hall⟩ := p3 hdn
      have hpos : 0 < steps.length := by
        cases steps with
        | nil => simp at h2
        | cons a l => simp
      exact ⟨hall, hlen, hpos⟩
    · rintro ⟨hall, hlen, hpos⟩
      rw [Bool.and_eq_true]
      constructor
      · cases hdn : dsid with
        | none => rfl
        | some x =>
          obtain ⟨hne, hlast, -⟩ := p4 x hdn
          have hmem := List.getLast_mem hne
          have := hall _ hmem
          rw [hlast hne] at this
          cases this
      · cases steps with
        | nil => simp at hpos
        | cons a l => simp

/-- C5 witness: the always-continue run over one step is converted, hence
drop-free and full-length. -/
theorem C5_converted_iff_witness :
    (∀ e ∈ run0.events, isDrop e.action = false) ∧
      run0.events.length = [step0].length ∧ 0 < [step0].length :=
  (C5_converted_iff decContinue persona0 [step0] run0 (by rfl)).mp rfl

/-- If the decision for the step at position `i` raises, and every earlier
step's decision succeeded without a drop, the step loop raises that very
exception. -/
theorem traverse_error_spec (dec : Step → Except PyError StepEvent) :
    ∀ (steps : List Step) (i : Nat) (hi : i < steps.length) (e : PyError),
      dec (steps.get ⟨i, hi⟩) = .error e →
      (∀ j (hj : j < i), ∃ ev,
        dec (steps.get ⟨j, Nat.lt_trans hj hi⟩) = .ok ev ∧
        isDrop ev.action = false) →
      traverse dec steps = .error e := by
  intro steps
  induction steps with
  | nil =>
    intro i hi
    simp at hi
  | cons s rest ih =>
    intro i hi e herr hpre
    cases i with
    | zero =>
      have herr' : dec s = .error e := herr
      unfold traverse
      rw [herr']
    | succ i' =>
      obtain ⟨ev0, hok, hnd⟩ := hpre 0 (Nat.succ_pos i')
      have hok' : dec s = .ok ev0 := hok
      have hi' : i' < rest.length := by
        simp only [List.length_cons] at hi
        omega
      have herr' : dec (rest.get ⟨i', hi'⟩) = .error e := herr
      have hpre' : ∀ j (hj : j < i'), ∃ ev,
          dec (rest.get ⟨j, Nat.lt_trans hj hi'⟩) = .ok ev ∧
          isDrop ev.action = false := by
        intro j hj
        obtain ⟨ev, hev, hevnd⟩ := hpre (j + 1) (by omega)
        exact ⟨ev, hev, hevnd⟩
      unfold traverse
      rw [hok']
      dsimp only
      rw [if_neg (by simp [hnd])]
      rw [ih i' hi' e herr' hpre']

/-- C6: an exception raised by the step decision at the first reached
failing step propagates unmodified out of the traversal — it is not
caught, not converted into a drop event, and no (partial) SimulationRun
is returned for that persona. -/
theorem C6_error_propagation (dec : Step → Except PyError StepEvent)
    (persona : Persona) (steps : List Step) (i : Nat) (hi : i < steps.length)
    (e : PyError)
    (herr : dec (steps.get ⟨i, hi⟩) = .error e)
    (hpre : ∀ j (hj : j < i), ∃ ev,
      dec (steps.get ⟨j, Nat.lt_trans hj hi⟩) = .ok ev ∧
      isDrop ev.action = false) :
    simulate_persona_through_flow dec persona steps = .error e ∧
    ∀ run, simulate_persona_through_flow dec persona steps ≠ .ok run := by
  have ht := traverse_error_spec dec steps i hi e herr hpre
  have hflow : simulate_persona_through_flow dec persona steps = .error e := by
    unfold simulate_persona_through_flow
    rw [ht]
  refine ⟨hflow, fun run hrun => ?_⟩
  rw [hflow] at hrun
  cases hrun

/-- A model response whose brace extraction / `json.loads` fails. -/
def respBad : Step → Except PyError PyDict :=
  fun _ => .error ⟨"Expecting value: line 1 column 1 (char 0)"⟩

/-- C6 witness: a parse failure on the very first step decision surfaces
as that same exception from the whole traversal. -/
theorem C6_error_propagation_witness :
    simulate_persona_through_flow (step_decision respBad) persona0 [step0] =
      .error ⟨"Expecting value: line 1 column 1 (char 0)"⟩ :=
  (C6_error_propagation (step_decision respBad) persona0 [step0] 0 (by simp)
    ⟨"Expecting value: line 1 column 1 (char 0)"⟩ rfl
    (fun j hj => absurd hj (by omega))).1

/-! ### Aggregator bookkeeping lemmas -/

/-- The net effect of the event loop on the accumulator of key `k`: count
the events referencing `k`, count the drops among them, append their
friction scores. -/
def tallyK (k : Int) (evs : List StepEvent) (s : StepStatsAcc) : StepStatsAcc :=
  { s with
    views := s.views + (evs.filter (fun e => e.step_id == k)).length
    drops := s.drops +
      ((evs.filter (fun e => e.step_id == k)).filter
        (fun e => isDrop e.action)).length
    friction_scores := s.friction_scores ++
      (evs.filter (fun e => e.step_id == k)).map (·.friction) }

theorem tallyK_nil (k : Int) (s : StepStatsAcc) : tallyK k [] s = s := by
  simp [tallyK]

theorem tallyK_cons (k : Int) (e : StepEvent) (rest : List StepEvent)
    (s : StepStatsAcc) :
    tallyK k (e :: rest) s =
      tallyK k rest (if k = e.step_id then bump e s else s) := by
  by_cases h : k = e.step_id
  · rw [if_pos h]
    have hc : (e.step_id == k) = true := by simp [h]
    simp only [tallyK, bump, List.filter_cons, hc, if_true, List.length_cons,
      List.map_cons, StepStatsAcc.mk.injEq]
    refine ⟨trivial, by omega, ?_, by simp⟩
    by_cases hd : isDrop e.action
    · simp only [hd, if_true, List.length_cons]
      omega
    · simp only [hd, if_false, Bool.false_eq_true]
      omega
  · rw [if_neg h]
    have hc : (e.step_id == k) = false := by
      simp only [beq_eq_false_iff_ne, ne_eq]
      exact fun hh => h hh.symm
    simp only [tallyK, List.filter_cons, hc, Bool.false_eq_true, if_false]

/-- Lookup after a key-preserving value map. -/
theorem statsGet_mapVal {α β : Type} (f : Int → α → β)
    (st : List (Int × α)) (k : Int) :
    statsGet (st.map fun kv => (kv.1, f kv.1 kv.2)) k =
      (statsGet st k).map (f k) := by
  induction st with
  | nil => rfl
  | cons kv rest ih =>
    obtain ⟨k', v⟩ := kv
    by_cases h : k' = k
    · subst h
      simp [statsGet]
    · simp [statsGet, h, ih]

/-- Lookup after a Python dict insertion. -/
theorem statsGet_dictInsert {α : Type} (d : List (Int × α)) (k : Int) (v : α)
    (k' : Int) :
    statsGet (dictInsert d k v) k' =
      if k = k' then some v else statsGet d k' := by
  induction d with
  | nil => rfl
  | cons kv rest ih =>
    obtain ⟨a, b⟩ := kv
    unfold dictInsert
    by_cases h1 : a = k
    · subst h1
      rw [if_pos rfl]
      by_cases h2 : a = k'
      · subst h2
        simp [statsGet]
      · simp [statsGet, h2]
    · rw [if_neg h1]
      by_cases h2 : a = k'
      · subst h2
        rw [if_neg fun hh => h1 hh.symm]
        simp [statsGet]
      · simp [statsGet, h2, ih]

/-- The init loop of `summarize_runs`: per key `k`, the entry is a zeroed
accumulator named after the LAST step whose id is `k` (Python dict
overwrite), absent when no step has id `k`. -/
theorem statsGet_initStats (steps : List Step) (k : Int) :
    statsGet (initStats steps) k =
      match steps.reverse.find? (fun s => s.id == k) with
      | some s => some ⟨s.name, 0, 0, []⟩
      | none => none := by
  suffices h : ∀ acc : List (Int × StepStatsAcc),
      statsGet (steps.foldl
        (fun a s => dictInsert a s.id ⟨s.name, 0, 0, []⟩) acc) k =
      match steps.reverse.find? (fun s => s.id == k) with
      | some s => some ⟨s.name, 0, 0, []⟩
      | none => statsGet acc k by
    exact h []
  induction steps with
  | nil =>
    intro acc
    rfl
  | cons s rest ih =>
    intro acc
    rw [List.foldl_cons, ih, List.reverse_cons, List.find?_append]
    cases hr : rest.reverse.find? (fun s => s.id == k) with
    | some s' => rfl
    | none =>
      dsimp only [Option.orElse, List.find?]
      by_cases h : s.id = k
      · rw [statsGet_dictInsert, if_pos h]
        simp [h]
      · have hb : (s.id == k) = false := by
          simp [h]
        rw [statsGet_dictInsert, if_neg h]
        simp [hb]

/-- A key is present in the initial accumulator dict iff some step has
that id. -/
theorem statsGet_initStats_isSome (steps : List Step) (k : Int) :
    (statsGet (initStats steps) k).isSome = true ↔ k ∈ steps.map Step.id := by
  rw [statsGet_initStats]
  cases hr : steps.reverse.find? (fun s => s.id == k) with
  | some s =>
    have hmem := List.mem_of_find?_eq_some hr
    have hid : s.id = k := by
      have := List.find?_some hr
      simpa using this
    simp only [Option.isSome_some, true_iff]
    rw [List.mem_reverse] at hmem
    exact List.mem_map.mpr ⟨s, hmem, hid⟩
  | none =>
    simp only [Option.isSome_none, Bool.false_eq_true, false_iff]
    intro hmem
    obtain ⟨s, hs, hid⟩ := List.mem_map.mp hmem
    have := List.find?_eq_none.mp hr s (List.mem_reverse.mpr hs)
    simp [hid] at this

/-- The event loop, on success, transforms every entry by `tallyK`. -/
theorem applyEvents_ok_statsGet :
    ∀ (evs : List StepEvent) (st st' : List (Int × StepStatsAcc)),
      applyEvents evs st = some st' →
      ∀ k, statsGet st' k = (statsGet st k).map (tallyK k evs) := by
  intro evs
  induction evs with
  | nil =>
    intro st st' h k
    injection h with h
    subst h
    cases hg : statsGet st k <;> simp [hg, tallyK_nil]
  | cons e rest ih =>
    intro st st' h k
    unfold applyEvents at h
    cases ha : applyEvent st e with
    | none =>
      rw [ha] at h
      cases h
    | some st1 =>
      rw [ha] at h
      dsimp only at h
      have hst1 : st1 = st.map fun kv =>
          (kv.1, if kv.1 = e.step_id then bump e kv.2 else kv.2) := by
        unfold applyEvent at ha
        cases hg : statsGet st e.step_id with
        | none =>
          rw [hg] at ha
          cases ha
        | some s0 =>
          rw [hg] at ha
          dsimp only at ha
          injection ha with ha
          rw [← ha]
          congr 1
          funext kv
          by_cases hkv : kv.1 = e.step_id
          · simp [hkv]
          · simp [hkv]
      have hmain := ih st1 st' h
      rw [hmain k, hst1, statsGet_mapVal (fun key s =>
        if key = e.step_id then bump e s else s) st k]
      cases hg : statsGet st k with
      | none => rfl
      | some s0 =>
        dsimp only [Option.map]
        rw [tallyK_cons]

/-- The event loop fails (KeyError) when some event's key is absent. -/
theorem applyEvents_fail :
    ∀ (evs : List StepEvent) (st : List (Int × StepStatsAcc)),
      (∃ e ∈ evs, statsGet st e.step_id = none) →
      applyEvents evs st = none := by
  intro evs
  induction evs with
  | nil =>
    intro st h
    obtain ⟨e, he, -⟩ := h
    cases he
  | cons e rest ih =>
    intro st h
    obtain ⟨e0, he0, hget⟩ := h
    unfold applyEvents
    rcases List.mem_cons.mp he0 with rfl | hmem
    · unfold applyEvent
      rw [hget]
    · cases ha : applyEvent st e with
      | none => rfl
      | some st1 =>
        dsimp only
        refine ih st1 ⟨e0, hmem, ?_⟩
        have hst1 : st1 = st.map fun kv =>
            (kv.1, if kv.1 = e.step_id then bump e kv.2 else kv.2) := by
          unfold applyEvent at ha
          cases hg : statsGet st e.step_id with
          | none =>
            rw [hg] at ha
            cases ha
          | some s0 =>
            rw [hg] at ha
            dsimp only at ha
            injection ha with ha
            rw [← ha]
            congr 1
            funext kv
            by_cases hkv : kv.1 = e.step_id
            · simp [hkv]
            · simp [hkv]
        rw [hst1, statsGet_mapVal (fun key s =>
          if key = e.step_id then bump e s else s) st e0.step_id, hget]
        rfl

/-- Membership in the flattened event list. -/
theorem mem_allEvents (runs : List SimulationRun) (r : SimulationRun)
    (e : StepEvent) (hr : r ∈ runs) (he : e ∈ r.events) :
    e ∈ allEvents runs := by
  induction runs with
  | nil => cases hr
  | cons r0 rest ih =>
    unfold allEvents
    rw [List.foldr_cons, List.mem_append]
    rcases List.mem_cons.mp hr with rfl | hmem
    · exact Or.inl he
    · exact Or.inr (ih hmem)

/-- Lookup after a key-independent value map. -/
theorem statsGet_mapValConst {α β : Type} (f : α → β)
    (st : List (Int × α)) (k : Int) :
    statsGet (st.map fun kv => (kv.1, f kv.2)) k =
      (statsGet st k).map f := by
  induction st with
  | nil => rfl
  | cons kv rest ih =>
    obtain ⟨k', v⟩ := kv
    by_cases h : k' = k
    · subst h
      simp [statsGet]
    · simp [statsGet, h, ih]

/-- All runs with empty event lists flatten to no events. -/
theorem allEvents_eq_nil :
    ∀ runs : List SimulationRun, (∀ r ∈ runs, r.events = []) →
      allEvents runs = [] := by
  intro runs h
  induction runs with
  | nil => rfl
  | cons r rest ih =>
    unfold allEvents
    rw [List.foldr_cons, h r (by simp)]
    exact ih fun x hx => h x (List.mem_cons_of_mem r hx)

/-- C7: for every step-stats entry of a successful non-empty aggregation,
`views`/`drops`/`friction_scores` count exactly the events referencing
that key, `drop_rate` is drops over views when views is positive and 0.0
otherwise, and `avg_friction` is the mean of that step's friction values
rounded to two decimals when the step has events and 0.0 otherwise. -/
theorem C7_step_stats (runs : List SimulationRun) (steps : List Step)
    (summary : Summary) (sid : Int) (stat : StepStatsOut)
    (hne : runs ≠ [])
    (hs : summarize_runs runs steps = some summary)
    (hg : statsGet summary.step_stats sid = some stat) :
    stat.views = ((allEvents runs).filter (fun e => e.step_id == sid)).length ∧
    stat.drops = (((allEvents runs).filter (fun e => e.step_id == sid)).filter
      (fun e => isDrop e.action)).length ∧
    stat.friction_scores =
      ((allEvents runs).filter (fun e => e.step_id == sid)).map (·.friction) ∧
    stat.drop_rate =
      (if 0 < stat.views then (stat.drops : ℚ) / (stat.views : ℚ) else 0) ∧
    stat.avg_friction =
      (if 0 < stat.views
       then round2 (((stat.friction_scores.foldr (· + ·) 0 : Int) : ℚ) /
         (stat.views : ℚ))
       else 0) := by
  unfold summarize_runs at hs
  rw [if_neg (by simpa using hne)] at hs
  cases hap : applyEvents (allEvents runs) (initStats steps) with
  | none =>
    rw [hap] at hs
    cases hs
  | some st =>
    rw [hap] at hs
    dsimp only at hs
    injection hs with hs
    subst hs
    rw [show (statsGet
        (st.map fun kv => (kv.1, finalize kv.2)) sid : Option StepStatsOut) =
        (statsGet st sid).map finalize from statsGet_mapValConst finalize st sid]
      at hg
    have hst := applyEvents_ok_statsGet (allEvents runs) (initStats steps) st hap sid
    rw [hst] at hg
    cases hi : statsGet (initStats steps) sid with
    | none =>
      rw [hi] at hg
      cases hg
    | some s0 =>
      rw [hi] at hg
      dsimp only [Option.map] at hg
      injection hg with hg
      have hs0 : s0.views = 0 ∧ s0.drops = 0 ∧ s0.friction_scores = [] := by
        rw [statsGet_initStats] at hi
        cases hr : steps.reverse.find? (fun s => s.id == sid) with
        | some s' =>
          rw [hr] at hi
          injection hi with hi
          rw [← hi]
          exact ⟨rfl, rfl, rfl⟩
        | none =>
          rw [hr] at hi
          cases hi
      obtain ⟨hv0, hd0, hf0⟩ := hs0
      subst hg
      have hviews : (finalize (tallyK sid (allEvents runs) s0)).views =
          ((allEvents runs).filter (fun e => e.step_id == sid)).length := by
        simp [finalize, tallyK, hv0]
      have hdrops : (finalize (tallyK sid (allEvents runs) s0)).drops =
          (((allEvents runs).filter (fun e => e.step_id == sid)).filter
            (fun e => isDrop e.action)).length := by
        simp [finalize, tallyK, hd0]
      have hscores : (finalize (tallyK sid (allEvents runs) s0)).friction_scores =
          ((allEvents runs).filter (fun e => e.step_id == sid)).map (·.friction) := by
        simp [finalize, tallyK, hf0]
      refine ⟨hviews, hdrops, hscores, ?_, ?_⟩
      · by_cases hzero :
            ((allEvents runs).filter (fun e => e.step_id == sid)).length = 0
        · have hmt : (allEvents runs).filter (fun e => e.step_id == sid) = [] :=
            List.length_eq_zero.mp hzero
          rw [hviews, hzero, if_neg (by omega)]
          simp [finalize, tallyK, hv0, hd0, hmt]
        · rw [hviews, if_pos (Nat.pos_of_ne_zero hzero), hdrops]
          simp [finalize, tallyK, hv0, hd0, hzero]
      · by_cases hzero :
            ((allEvents runs).filter (fun e => e.step_id == sid)).length = 0
        · have hmt : (allEvents runs).filter (fun e => e.step_id == sid) = [] :=
            List.length_eq_zero.mp hzero
          rw [hviews, hzero, if_neg (by omega)]
          simp [finalize, tallyK, hf0, hmt]
        · have hmt : (allEvents runs).filter (fun e => e.step_id == sid) ≠ [] :=
            fun hh => hzero (by rw [hh]; rfl)
          rw [hviews, if_pos (Nat.pos_of_ne_zero hzero), hscores]
          simp [finalize, tallyK, hv0, hf0, hzero, hmt]

/-- Two runs over one step: one continue at friction 3, one drop at
friction 7. -/
def runsW : List SimulationRun :=
  [⟨persona0, [⟨0, .str "continue", 3, .str ""⟩], true, none⟩,
   ⟨persona0, [⟨0, .str "drop", 7, .str ""⟩], false, some 0⟩]

/-- C7 witness: on the two concrete runs over `step0`, views is 2. -/
theorem C7_step_stats_witness :
    ∃ summary stat, summarize_runs runsW [step0] = some summary ∧
      statsGet summary.step_stats 0 = some stat ∧
      stat.views = ((allEvents runsW).filter (fun e => e.step_id == 0)).length := by
  refine ⟨_, _, rfl, rfl, ?_⟩
  exact (C7_step_stats runsW [step0] _ 0 _ (by simp [runsW]) rfl rfl).1

/-- C8: over an empty step sequence every traversal returns the empty run
(no events, not converted, no drop step), and aggregating any collection
of such runs yields conversion rate 0.0 and an empty step-stats dict. -/
theorem C8_empty_flow :
    (∀ (dec : Step → Except PyError StepEvent) (persona : Persona),
      simulate_persona_through_flow dec persona [] =
        .ok ⟨persona, [], false, none⟩) ∧
    (∀ runs : List SimulationRun,
      (∀ r ∈ runs, r.events = [] ∧ r.converted = false) →
      ∃ su, summarize_runs runs [] = some su ∧
        su.conversion_rate = 0 ∧ su.step_stats = []) := by
  constructor
  · intro dec persona
    rfl
  · intro runs hall
    cases runs with
    | nil => exact ⟨⟨0, [], []⟩, rfl, rfl, rfl⟩
    | cons r rest =>
      unfold summarize_runs
      rw [if_neg (by simp)]
      rw [allEvents_eq_nil (r :: rest) (fun x hx => (hall x hx).1)]
      dsimp only [applyEvents, initStats, List.foldl_nil]
      refine ⟨_, rfl, ?_, rfl⟩
      have hfil : (r :: rest).filter (·.converted) = [] :=
        List.filter_eq_nil_iff.mpr fun a ha => by simp [(hall a ha).2]
      simp [hfil]

/-- C8 witness: one empty run over the empty flow aggregates to rate 0
and no step stats. -/
theorem C8_empty_flow_witness :
    ∃ su, summarize_runs [⟨persona0, [], false, none⟩] [] = some su ∧
      su.conversion_rate = 0 ∧ su.step_stats = [] :=
  C8_empty_flow.2 [⟨persona0, [], false, none⟩]
    (fun r hr => by
      rcases List.mem_singleton.mp hr with rfl
      exact ⟨rfl, rfl⟩)

/-- C9: aggregation is total only when every event's `step_id` occurs
among the supplied steps — a single foreign `step_id` in a non-empty run
collection makes `summarize_runs` raise an uncaught `KeyError` (modelled
by `none`) instead of returning a Summary. -/
theorem C9_foreign_step_id (runs : List SimulationRun) (steps : List Step)
    (hne : runs ≠ [])
    (hbad : ∃ r ∈ runs, ∃ e ∈ r.events, e.step_id ∉ steps.map Step.id) :
    summarize_runs runs steps = none := by
  obtain ⟨r, hr, e, he, hnotin⟩ := hbad
  unfold summarize_runs
  rw [if_neg (by simpa using hne)]
  have hget : statsGet (initStats steps) e.step_id = none := by
    cases hg : statsGet (initStats steps) e.step_id with
    | none => rfl
    | some s =>
      exact absurd ((statsGet_initStats_isSome steps e.step_id).mp
        (by rw [hg]; rfl)) hnotin
  rw [applyEvents_fail (allEvents runs) (initStats steps)
    ⟨e, mem_allEvents runs r e hr he, hget⟩]

/-- A run whose single event references the nonexistent step id 7. -/
def runBad : SimulationRun :=
  ⟨persona0, [⟨7, .str "continue", 5, .str ""⟩], true, none⟩

/-- C9 witness: a run referencing step id 7 aggregated against the
single step `step0` (id 0) fails. -/
theorem C9_foreign_step_id_witness :
    summarize_runs [runBad] [step0] = none :=
  C9_foreign_step_id [runBad] [step0] (by simp)
    ⟨runBad, by simp, ⟨7, .str "continue", 5, .str ""⟩,
      by simp [runBad], by simp [step0]⟩

/-- C10: when the parsed payload is an object with no `"personas"` key,
`generate_personas` returns the empty persona list (no exception), for
every flow description and requested count. -/
theorem C10_no_personas_key (flow_description : String) (num_personas : Nat)
    (data : PyDict) (h : dictGet data "personas" = none) :
    generate_personas flow_description num_personas data = some [] := by
  unfold generate_personas
  rw [h]
  rfl

/-- C10 witness: a payload carrying only a `"persona"` (singular) key
yields the empty list. -/
theorem C10_no_personas_key_witness :
    generate_personas "checkout flow" 7 [("persona", JsonValue.str "x")] =
      some [] :=
  C10_no_personas_key "checkout flow" 7 [("persona", JsonValue.str "x")] (by rfl)

end SynthSim
